import Mathlib

/-!
Verification of the coordinated motion-control subsystem of the
auto-chess-backend repository: the single-axis stepper abstraction
(`src/src/motor/stepper_motor.py`), the dual-axis coordinator
(`src/src/motor/motor_controller.py`) and the pulse-train timeline merge
(`src/src/motor/pigpio_wave.py`).

Modelling conventions:
* Python `float` delay arithmetic is embedded as exact rational (`ℚ`)
  arithmetic; the float literal `0.7` is the rational `7/10`.
* GPIO side effects are recorded as data: each `_pulse_step` call is logged
  as a `Pulse` carrying the axis, the per-axis step index at the time of the
  pulse, and the `step_delay` in effect at the time of the pulse.
* The endstop input of an axis is a function `ℕ → Bool` giving the reading
  of `home_device.is_pressed` just before each prospective homing pulse.
* Python exceptions (`ValueError`, `RuntimeError`) raised by validation are
  embedded as an `Option MotionError` result component; when an error is
  returned no state mutation has happened, exactly as in the source where
  the `raise` precedes every mutation.
* The coordinated move is modelled along its software-timed branch
  (`wave_generator is None`, i.e. `_move_coordinated_with_sleep`), which is
  where the Bresenham loop lives; the hardware-timed branch's timeline
  construction (`_build_step_timeline`, the diagonal boost of
  `_move_coordinated_with_pigpio` and `_merge_step_timelines`) is embedded
  separately as pure list functions.
-/

/-- Which of the two axes a recorded step pulse belongs to. -/
inductive Axis where
  | x : Axis
  | y : Axis
deriving DecidableEq, Repr

/-- One recorded `_pulse_step` call: the axis pulsed, that axis's own step
counter at the time of the pulse (`x_step_count` / `y_step_count`), and the
motor's `step_delay` in effect when the pulse was emitted. -/
structure Pulse where
  axis : Axis
  idx : ℕ
  delay : ℚ
deriving DecidableEq, Repr

/-- State of one `StepperMotor` (`stepper_motor.py`).  Pin numbers and GPIO
device handles are omitted: they carry no state relevant to the claims. -/
structure StepperMotor where
  invert_direction : Bool
  max_position : ℕ
  step_delay : ℚ
  step_pulse_duration : ℚ
  current_position : ℤ
  is_homed : Bool
  is_enabled : Bool
deriving DecidableEq, Repr

/-- The error taxonomy of the motion subsystem (spec §7).  `OutOfBounds` and
`NotHomed` are `ValueError`/`RuntimeError` in `motor_controller.py`;
`Disabled` and `HomingTimeout` are `RuntimeError` in `stepper_motor.py`. -/
inductive MotionError where
  | OutOfBounds : MotionError
  | Disabled : MotionError
  | NotHomed : MotionError
  | HomingTimeout : MotionError
deriving DecidableEq, Repr

namespace StepperMotor

/-- `StepperMotor.calculate_step_delay` (`stepper_motor.py:292-342`):
trapezoidal velocity-space ramp.  Division is exact rational division;
`total_steps // 2` is Lean's `Nat` division, identical to Python's floor
division on non-negative ints. -/
def calculate_step_delay (step_number total_steps : ℕ)
    (min_delay max_delay : ℚ) (accel_steps : ℕ) : ℚ :=
  let min_speed : ℚ := 1 / max_delay
  let max_speed : ℚ := 1 / min_delay
  let effective_accel_steps : ℕ := min accel_steps (total_steps / 2)
  if step_number < effective_accel_steps then
    let ratio : ℚ := (step_number : ℚ) / (effective_accel_steps : ℚ)
    1 / (min_speed + (max_speed - min_speed) * ratio)
  else if total_steps - effective_accel_steps ≤ step_number then
    let steps_into_decel : ℕ := step_number - (total_steps - effective_accel_steps)
    let ratio : ℚ := (steps_into_decel : ℚ) / (effective_accel_steps : ℚ)
    1 / (max_speed - (max_speed - min_speed) * ratio)
  else
    min_delay

/-- `StepperMotor._validate_move` (`stepper_motor.py:135-159`): returns the
error the Python code would raise, if any. -/
def validate_move (m : StepperMotor) (steps : ℕ) (direction : ℕ) :
    Option MotionError :=
  if direction = 1 ∧ (m.max_position : ℤ) < m.current_position + steps then
    some MotionError.OutOfBounds
  else if direction = 0 ∧ m.current_position - steps < 0 then
    some MotionError.OutOfBounds
  else
    none

/-- `StepperMotor._update_position` (`stepper_motor.py:161-172`). -/
def update_position (m : StepperMotor) (steps : ℕ) (direction : ℕ) :
    StepperMotor :=
  if direction = 1 then
    { m with current_position := m.current_position + steps }
  else
    { m with current_position := m.current_position - steps }

/-- `StepperMotor.move` (`stepper_motor.py:112-133`).  Returns the raised
error (if any), the motor state afterwards, and the number of step pulses
emitted.  The disabled check precedes validation, which precedes pulsing,
which precedes the position update, exactly as in the source. -/
def move (m : StepperMotor) (steps : ℕ) (direction : ℕ) :
    Option MotionError × StepperMotor × ℕ :=
  if ¬m.is_enabled then
    (some MotionError.Disabled, m, 0)
  else
    match m.validate_move steps direction with
    | some e => (some e, m, 0)
    | none => (none, m.update_position steps direction, steps)

/-- The homing loop of `StepperMotor._execute_homing`
(`stepper_motor.py:254-263`): `endstop taken` is the reading of
`home_device.is_pressed` when `steps_taken = taken`; `fuel` is
`max_steps - steps_taken`.  Returns `(success?, motor, pulses emitted)`. -/
def homingLoop (endstop : ℕ → Bool) :
    ℕ → ℕ → StepperMotor → Bool × StepperMotor × ℕ
  | 0, _, m => (false, m, 0)
  | fuel + 1, taken, m =>
    if ¬endstop taken then
      let (ok, m', pulses) := homingLoop endstop fuel (taken + 1) m
      (ok, m', pulses + 1)
    else
      (true, { m with current_position := 0, is_homed := true }, 0)

/-- `StepperMotor._execute_homing` (`stepper_motor.py:236-270`): sets the
homing step delay, runs the loop for at most `max_position` pulses, and
restores the original step delay (the Python `finally`), which runs on both
the success and the timeout path. -/
def execute_homing (m : StepperMotor) (endstop : ℕ → Bool)
    (home_step_delay : ℚ) : Option MotionError × StepperMotor × ℕ :=
  let original_step_delay := m.step_delay
  let m₁ : StepperMotor := { m with step_delay := home_step_delay }
  let (ok, m₂, pulses) := homingLoop endstop m.max_position 0 m₁
  let m₃ : StepperMotor := { m₂ with step_delay := original_step_delay }
  if ok then (none, m₃, pulses) else (some MotionError.HomingTimeout, m₃, pulses)

end StepperMotor

/-- State of the `MotorController` (`motor_controller.py`).  The
`wave_generator` field is dropped: the coordinated move is modelled along
the software-timed branch, the hardware branch's timeline construction is
modelled separately below. -/
structure MotorController where
  motor_x : StepperMotor
  motor_y : StepperMotor
  enable_acceleration : Bool
  min_step_delay : ℚ
  max_step_delay : ℚ
  accel_steps : ℕ
deriving DecidableEq, Repr

namespace MotorController

/-- The mutable state threaded through one Bresenham loop
(`_execute_x_dominant_move` / `_execute_y_dominant_move`): both motors,
the error accumulator, both per-axis step counters, and the pulse log. -/
structure LoopState where
  mx : StepperMotor
  my : StepperMotor
  error : ℚ
  x_step_count : ℕ
  y_step_count : ℕ
  pulses : List Pulse
deriving DecidableEq, Repr

/-- One iteration of the `for _ in range(abs_dx)` loop of
`MotorController._execute_x_dominant_move` (`motor_controller.py:309-341`). -/
def xDominantIter (c : MotorController) (abs_dx abs_dy : ℕ)
    (x_dir y_dir : Bool) (diagonal_speed_boost : ℚ) (s : LoopState) :
    LoopState :=
  let x_delay : ℚ :=
    StepperMotor.calculate_step_delay s.x_step_count abs_dx
      c.min_step_delay c.max_step_delay c.accel_steps * diagonal_speed_boost
  let mx := if c.enable_acceleration then
      { s.mx with step_delay := x_delay }
    else s.mx
  let pulses := s.pulses ++ [⟨Axis.x, s.x_step_count, mx.step_delay⟩]
  let xPos := mx.current_position + (if x_dir then 1 else -1)
  let mx := { mx with current_position := xPos }
  let x_step_count := s.x_step_count + 1
  let error := s.error - abs_dy
  if error < 0 then
    let y_delay : ℚ :=
      StepperMotor.calculate_step_delay s.y_step_count abs_dy
        c.min_step_delay c.max_step_delay c.accel_steps * diagonal_speed_boost
    let my := if c.enable_acceleration then
        { s.my with step_delay := y_delay }
      else s.my
    let pulses := pulses ++ [⟨Axis.y, s.y_step_count, my.step_delay⟩]
    let yPos := my.current_position + (if y_dir then 1 else -1)
    let my := { my with current_position := yPos }
    { mx := mx, my := my, error := error + abs_dx,
      x_step_count := x_step_count, y_step_count := s.y_step_count + 1,
      pulses := pulses }
  else
    { mx := mx, my := s.my, error := error,
      x_step_count := x_step_count, y_step_count := s.y_step_count,
      pulses := pulses }

/-- One iteration of the `for _ in range(abs_dy)` loop of
`MotorController._execute_y_dominant_move` (`motor_controller.py:365-397`). -/
def yDominantIter (c : MotorController) (abs_dx abs_dy : ℕ)
    (x_dir y_dir : Bool) (diagonal_speed_boost : ℚ) (s : LoopState) :
    LoopState :=
  let y_delay : ℚ :=
    StepperMotor.calculate_step_delay s.y_step_count abs_dy
      c.min_step_delay c.max_step_delay c.accel_steps * diagonal_speed_boost
  let my := if c.enable_acceleration then
      { s.my with step_delay := y_delay }
    else s.my
  let pulses := s.pulses ++ [⟨Axis.y, s.y_step_count, my.step_delay⟩]
  let yPos := my.current_position + (if y_dir then 1 else -1)
  let my := { my with current_position := yPos }
  let y_step_count := s.y_step_count + 1
  let error := s.error - abs_dx
  if error < 0 then
    let x_delay : ℚ :=
      StepperMotor.calculate_step_delay s.x_step_count abs_dx
        c.min_step_delay c.max_step_delay c.accel_steps * diagonal_speed_boost
    let mx := if c.enable_acceleration then
        { s.mx with step_delay := x_delay }
      else s.mx
    let pulses := pulses ++ [⟨Axis.x, s.x_step_count, mx.step_delay⟩]
    let xPos := mx.current_position + (if x_dir then 1 else -1)
    let mx := { mx with current_position := xPos }
    { mx := mx, my := my, error := error + abs_dy,
      x_step_count := s.x_step_count + 1, y_step_count := y_step_count,
      pulses := pulses }
  else
    { mx := s.mx, my := my, error := error,
      x_step_count := s.x_step_count, y_step_count := y_step_count,
      pulses := pulses }

/-- `MotorController._execute_x_dominant_move` (`motor_controller.py:287-341`):
`error` starts at `abs_dx / 2` (Python float division, exact here) and the
body runs `abs_dx` times. -/
def execute_x_dominant_move (c : MotorController) (abs_dx abs_dy : ℕ)
    (x_dir y_dir : Bool) (diagonal_speed_boost : ℚ) : LoopState :=
  (xDominantIter c abs_dx abs_dy x_dir y_dir diagonal_speed_boost)^[abs_dx]
    { mx := c.motor_x, my := c.motor_y, error := (abs_dx : ℚ) / 2,
      x_step_count := 0, y_step_count := 0, pulses := [] }

/-- `MotorController._execute_y_dominant_move` (`motor_controller.py:343-397`). -/
def execute_y_dominant_move (c : MotorController) (abs_dx abs_dy : ℕ)
    (x_dir y_dir : Bool) (diagonal_speed_boost : ℚ) : LoopState :=
  (yDominantIter c abs_dx abs_dy x_dir y_dir diagonal_speed_boost)^[abs_dy]
    { mx := c.motor_x, my := c.motor_y, error := (abs_dy : ℚ) / 2,
      x_step_count := 0, y_step_count := 0, pulses := [] }

/-- `MotorController._move_coordinated_with_sleep`
(`motor_controller.py:257-285`): save both step delays, pick the dominant
axis (`abs_dx > abs_dy` → x-dominant, else y-dominant), run the Bresenham
loop with the diagonal boost, restore both step delays. -/
def move_coordinated_with_sleep (c : MotorController) (abs_dx abs_dy : ℕ)
    (x_dir y_dir : Bool) : MotorController × List Pulse :=
  let original_x_delay := c.motor_x.step_delay
  let original_y_delay := c.motor_y.step_delay
  let diagonal_speed_boost : ℚ := if 0 < abs_dx ∧ 0 < abs_dy then 7/10 else 1
  let s := if abs_dy < abs_dx then
      c.execute_x_dominant_move abs_dx abs_dy x_dir y_dir diagonal_speed_boost
    else
      c.execute_y_dominant_move abs_dx abs_dy x_dir y_dir diagonal_speed_boost
  ({ c with motor_x := { s.mx with step_delay := original_x_delay },
            motor_y := { s.my with step_delay := original_y_delay } },
   s.pulses)

/-- `MotorController._move_coordinated` (`motor_controller.py:108-145`) along
its software-timed branch, with `_prepare_coordinated_move`
(`motor_controller.py:147-177`) inlined at its call site: the `(0,0)` no-op
short-circuit, direction selection, the atomic bounds validation of both
axes (raising before any pulse), the Bresenham execution, and the final
reconciliation of both `current_position`s to the validated targets. -/
def move_coordinated (c : MotorController) (dx dy : ℤ) :
    Option MotionError × MotorController × List Pulse :=
  if dx = 0 ∧ dy = 0 then
    (none, c, [])
  else
    let x_dir : Bool := 0 < dx
    let y_dir : Bool := 0 < dy
    let abs_dx : ℕ := dx.natAbs
    let abs_dy : ℕ := dy.natAbs
    let target_x : ℤ := c.motor_x.current_position + dx
    let target_y : ℤ := c.motor_y.current_position + dy
    if target_x < 0 ∨ (c.motor_x.max_position : ℤ) < target_x then
      (some MotionError.OutOfBounds, c, [])
    else if target_y < 0 ∨ (c.motor_y.max_position : ℤ) < target_y then
      (some MotionError.OutOfBounds, c, [])
    else
      let (c', pulses) := c.move_coordinated_with_sleep abs_dx abs_dy x_dir y_dir
      (none,
       { c' with
          motor_x := { c'.motor_x with current_position := target_x },
          motor_y := { c'.motor_y with current_position := target_y } },
       pulses)

/-- `MotorController.move_relative` (`motor_controller.py:399-409`): a direct
delegation to `_move_coordinated`, with no homed or enabled precondition. -/
def move_relative (c : MotorController) (dx dy : ℤ) :
    Option MotionError × MotorController × List Pulse :=
  c.move_coordinated dx dy

/-- `MotorController.move_to` (`motor_controller.py:82-106`): requires both
axes homed, then delegates the deltas to `_move_coordinated`. -/
def move_to (c : MotorController) (x y : ℤ) :
    Option MotionError × MotorController × List Pulse :=
  if ¬c.motor_x.is_homed ∨ ¬c.motor_y.is_homed then
    (some MotionError.NotHomed, c, [])
  else
    c.move_coordinated (x - c.motor_x.current_position)
      (y - c.motor_y.current_position)

/-- `MotorController._build_step_timeline` (`motor_controller.py:227-255`):
the per-step `(step_number, delay)` timeline for the hardware-timed branch;
the step pulse duration (taken from `motor_x` for both axes, as in the
source) is added to every delay. -/
def build_step_timeline (c : MotorController) (total_steps : ℕ) :
    List (ℕ × ℚ) :=
  (List.range total_steps).map fun step_num =>
    let delay : ℚ := if c.enable_acceleration then
        StepperMotor.calculate_step_delay step_num total_steps
          c.min_step_delay c.max_step_delay c.accel_steps
      else c.min_step_delay
    (step_num, delay + c.motor_x.step_pulse_duration)

/-- The timeline construction of `MotorController._move_coordinated_with_pigpio`
(`motor_controller.py:179-225`): both per-axis timelines with the diagonal
boost applied, exactly the `x_steps`/`y_steps` handed to the wave
generator.  Pin and direction handling is pure GPIO I/O and is omitted. -/
def pigpio_step_timelines (c : MotorController) (abs_dx abs_dy : ℕ) :
    List (ℕ × ℚ) × List (ℕ × ℚ) :=
  let x_steps := c.build_step_timeline abs_dx
  let y_steps := c.build_step_timeline abs_dy
  let diagonal_boost : ℚ := if 0 < abs_dx ∧ 0 < abs_dy then 7/10 else 1
  (x_steps.map fun p => (p.1, p.2 * diagonal_boost),
   y_steps.map fun p => (p.1, p.2 * diagonal_boost))

end MotorController

namespace PigpioWaveGenerator

/-- The accumulation loop of `PigpioWaveGenerator._merge_step_timelines`
(`pigpio_wave.py:162-171`): starting from running time `t`, turn a
`(step_number, delay)` list into `(absolute_time, pin)` events by adding
each successive delay to the running time. -/
def accumulateEvents (pin : ℕ) : ℚ → List (ℕ × ℚ) → List (ℚ × ℕ)
  | _, [] => []
  | t, (_, delay) :: rest =>
    (t + delay, pin) :: accumulateEvents pin (t + delay) rest

/-- `PigpioWaveGenerator._merge_step_timelines` (`pigpio_wave.py:140-176`):
accumulate both axes' events from time 0 and sort the concatenation
ascending by absolute time (Python's stable `list.sort` with key the
time component). -/
def merge_step_timelines (x_steps y_steps : List (ℕ × ℚ))
    (x_step_pin y_step_pin : ℕ) : List (ℚ × ℕ) :=
  let events := accumulateEvents x_step_pin 0 x_steps
    ++ accumulateEvents y_step_pin 0 y_steps
  events.mergeSort (fun a b => a.1 ≤ b.1)

end PigpioWaveGenerator

namespace MotorController

/-- The delay a recorded X pulse must carry in the software-timed loop: the
velocity-profile delay at the pulse's own step index scaled by the diagonal
boost when acceleration is enabled, the motor's pre-move `step_delay`
otherwise. -/
def xDelaySpec (c : MotorController) (abs_dx : ℕ) (boost : ℚ) (i : ℕ) : ℚ :=
  if c.enable_acceleration then
    StepperMotor.calculate_step_delay i abs_dx
      c.min_step_delay c.max_step_delay c.accel_steps * boost
  else c.motor_x.step_delay

/-- Y-axis analogue of `xDelaySpec`. -/
def yDelaySpec (c : MotorController) (abs_dy : ℕ) (boost : ℚ) (i : ℕ) : ℚ :=
  if c.enable_acceleration then
    StepperMotor.calculate_step_delay i abs_dy
      c.min_step_delay c.max_step_delay c.accel_steps * boost
  else c.motor_y.step_delay

/-- Correctness of one recorded pulse of the software-timed loop. -/
def pulseOk (c : MotorController) (abs_dx abs_dy : ℕ) (boost : ℚ)
    (p : Pulse) : Prop :=
  p.delay = match p.axis with
    | Axis.x => c.xDelaySpec abs_dx boost p.idx
    | Axis.y => c.yDelaySpec abs_dy boost p.idx

/-- Loop invariant of the x-dominant Bresenham loop after `k` iterations:
the dominant counter equals `k`, the error accumulator carries its closed
form and stays in `[0, abs_dx)`, positions moved by the step counters in
the chosen directions, the pulse log holds exactly the counted pulses with
the delays dictated by the velocity profile, and with acceleration off the
step delays are untouched. -/
def XInv (c : MotorController) (abs_dx abs_dy : ℕ) (x_dir y_dir : Bool)
    (boost : ℚ) (k : ℕ) (s : LoopState) : Prop :=
  s.x_step_count = k ∧
  s.error = (abs_dx : ℚ) / 2 - (k : ℚ) * (abs_dy : ℚ)
      + (s.y_step_count : ℚ) * (abs_dx : ℚ) ∧
  0 ≤ s.error ∧ s.error < (abs_dx : ℚ) ∧
  s.mx.current_position
    = c.motor_x.current_position + (if x_dir then (k : ℤ) else -(k : ℤ)) ∧
  s.my.current_position
    = c.motor_y.current_position
      + (if y_dir then (s.y_step_count : ℤ) else -(s.y_step_count : ℤ)) ∧
  (s.pulses.filter fun p => p.axis = Axis.x).length = k ∧
  (s.pulses.filter fun p => p.axis = Axis.y).length = s.y_step_count ∧
  s.pulses.length = k + s.y_step_count ∧
  (∀ p ∈ s.pulses, c.pulseOk abs_dx abs_dy boost p) ∧
  (c.enable_acceleration = false →
    s.mx.step_delay = c.motor_x.step_delay ∧
    s.my.step_delay = c.motor_y.step_delay)

/-- Loop invariant of the y-dominant Bresenham loop, mirrored. -/
def YInv (c : MotorController) (abs_dx abs_dy : ℕ) (x_dir y_dir : Bool)
    (boost : ℚ) (k : ℕ) (s : LoopState) : Prop :=
  s.y_step_count = k ∧
  s.error = (abs_dy : ℚ) / 2 - (k : ℚ) * (abs_dx : ℚ)
      + (s.x_step_count : ℚ) * (abs_dy : ℚ) ∧
  0 ≤ s.error ∧ s.error < (abs_dy : ℚ) ∧
  s.my.current_position
    = c.motor_y.current_position + (if y_dir then (k : ℤ) else -(k : ℤ)) ∧
  s.mx.current_position
    = c.motor_x.current_position
      + (if x_dir then (s.x_step_count : ℤ) else -(s.x_step_count : ℤ)) ∧
  (s.pulses.filter fun p => p.axis = Axis.y).length = k ∧
  (s.pulses.filter fun p => p.axis = Axis.x).length = s.x_step_count ∧
  s.pulses.length = k + s.x_step_count ∧
  (∀ p ∈ s.pulses, c.pulseOk abs_dx abs_dy boost p) ∧
  (c.enable_acceleration = false →
    s.mx.step_delay = c.motor_x.step_delay ∧
    s.my.step_delay = c.motor_y.step_delay)

end MotorController

/-- Overwrite the `is_enabled` flag of one motor. -/
def StepperMotor.setEnabled (m : StepperMotor) (b : Bool) : StepperMotor :=
  { m with is_enabled := b }

/-- Overwrite the `is_enabled` flags of both axes of a controller. -/
def MotorController.setEnabled (c : MotorController) (b₁ b₂ : Bool) :
    MotorController :=
  { c with motor_x := c.motor_x.setEnabled b₁,
           motor_y := c.motor_y.setEnabled b₂ }

/-- Overwrite the `is_enabled` flags of both motors of a loop state. -/
def MotorController.LoopState.setEnabled (s : MotorController.LoopState)
    (b₁ b₂ : Bool) : MotorController.LoopState :=
  { s with mx := s.mx.setEnabled b₁, my := s.my.setEnabled b₂ }

/-!  ## Theorems  -/

/-- C6: for every step index `0 ≤ i < N` and positive delays, the velocity
profile is well defined (the ramp divisor is only used where it is provably
nonzero, so no division by zero arises, even when the effective ramp
`min(A, N // 2)` is zero) and yields a strictly positive delay; and for
`N < 2A` the profile equals the profile with ramp length `N // 2`, i.e.
the effective ramp on each side degrades to `N // 2`. -/
theorem step_delay_short_move_safe (i N A : ℕ) (mind maxd : ℚ)
    (hiN : i < N) (hmin : 0 < mind) (hmax : 0 < maxd) :
    0 < StepperMotor.calculate_step_delay i N mind maxd A ∧
    (N < 2 * A →
      StepperMotor.calculate_step_delay i N mind maxd A
        = StepperMotor.calculate_step_delay i N mind maxd (N / 2)) := by
  constructor
  · simp only [StepperMotor.calculate_step_delay]
    split_ifs with h1 h2
    · have heff : 0 < min A (N / 2) := lt_of_le_of_lt (Nat.zero_le _) h1
      have heffQ : (0:ℚ) < ((min A (N / 2) : ℕ) : ℚ) := Nat.cast_pos.mpr heff
      have hr0 : (0:ℚ) ≤ (i:ℚ) / ((min A (N / 2) : ℕ) : ℚ) := by positivity
      have hr1 : (i:ℚ) / ((min A (N / 2) : ℕ) : ℚ) < 1 := by
        rw [div_lt_one heffQ]
        exact Nat.cast_lt.mpr h1
      have hms : (0:ℚ) < 1 / maxd := by positivity
      have hMs : (0:ℚ) < 1 / mind := by positivity
      have hden : (0:ℚ) < 1 / maxd
          + (1 / mind - 1 / maxd) * ((i:ℚ) / ((min A (N / 2) : ℕ) : ℚ)) := by
        nlinarith
      exact one_div_pos.mpr hden
    · have heff : 0 < min A (N / 2) := by omega
      have hd : i - (N - min A (N / 2)) < min A (N / 2) := by omega
      have heffQ : (0:ℚ) < ((min A (N / 2) : ℕ) : ℚ) := Nat.cast_pos.mpr heff
      have hr0 : (0:ℚ) ≤ ((i - (N - min A (N / 2)) : ℕ) : ℚ)
          / ((min A (N / 2) : ℕ) : ℚ) := by positivity
      have hr1 : ((i - (N - min A (N / 2)) : ℕ) : ℚ)
          / ((min A (N / 2) : ℕ) : ℚ) < 1 := by
        rw [div_lt_one heffQ]
        exact Nat.cast_lt.mpr hd
      have hms : (0:ℚ) < 1 / maxd := by positivity
      have hMs : (0:ℚ) < 1 / mind := by positivity
      have hden : (0:ℚ) < 1 / mind - (1 / mind - 1 / maxd)
          * (((i - (N - min A (N / 2)) : ℕ) : ℚ)
             / ((min A (N / 2) : ℕ) : ℚ)) := by
        nlinarith
      exact one_div_pos.mpr hden
    · exact hmin
  · intro h2A
    have h1 : min A (N / 2) = N / 2 := min_eq_right (by omega)
    simp only [StepperMotor.calculate_step_delay, h1, min_self]

/-- C6 witness: the theorem applied at `i = 0`, `N = 1`, `A = 5`,
`min_delay = 1`, `max_delay = 2`. -/
theorem step_delay_short_move_safe_witness :
    0 < StepperMotor.calculate_step_delay 0 1 1 2 5 ∧
    (1 < 2 * 5 →
      StepperMotor.calculate_step_delay 0 1 1 2 5
        = StepperMotor.calculate_step_delay 0 1 1 2 (1 / 2)) :=
  step_delay_short_move_safe 0 1 5 1 2 (by decide) (by decide) (by decide)

/-- C4 counterexample: at `N = 4`, `A = 2`, `min_delay = 1`, `max_delay = 2`
and ramp-up index `i = 0 < A` with `N ≥ 2A`, the ramp-up delay differs from
the ramp-down delay at index `N - 1 - i`: the profile is not symmetric
about the middle of the move as claimed. -/
theorem velocity_symmetry_counterexample :
    (0:ℕ) < 2 ∧ 2 * 2 ≤ 4 ∧
    StepperMotor.calculate_step_delay 0 4 1 2 2
      ≠ StepperMotor.calculate_step_delay (4 - 1 - 0) 4 1 2 2 := by
  refine ⟨by decide, by decide, ?_⟩
  simp only [StepperMotor.calculate_step_delay]
  norm_num

/-- C4 amended: the ramp of `calculate_step_delay` is symmetric with an
off-by-one shift: for every `N ≥ 2A` and ramp-up index `1 ≤ i < A`, the
ramp-up delay at index `i` equals the ramp-down delay at index `N - i`
(not `N - 1 - i`): the step-0 delay `max_delay` has no ramp-down mirror. -/
theorem velocity_symmetry_amended (i N A : ℕ) (mind maxd : ℚ)
    (h1 : 1 ≤ i) (h2 : i < A) (h3 : 2 * A ≤ N) :
    StepperMotor.calculate_step_delay i N mind maxd A
      = StepperMotor.calculate_step_delay (N - i) N mind maxd A := by
  have heff : min A (N / 2) = A := min_eq_left (by omega)
  have hA0 : (0:ℚ) < (A:ℚ) := by exact_mod_cast (by omega : 0 < A)
  simp only [StepperMotor.calculate_step_delay, heff]
  rw [if_pos h2, if_neg (by omega : ¬(N - i < A)),
    if_pos (by omega : N - A ≤ N - i)]
  have hd : (N - i) - (N - A) = A - i := by omega
  rw [hd]
  have hcast : ((A - i : ℕ) : ℚ) = (A:ℚ) - (i:ℚ) := by
    push_cast [Nat.cast_sub h2.le]
    ring
  rw [hcast]
  congr 1
  field_simp
  ring

/-- C4 amended witness: the amended theorem applied at `i = 1`, `N = 4`,
`A = 2`, `min_delay = 1`, `max_delay = 2`. -/
theorem velocity_symmetry_amended_witness :
    StepperMotor.calculate_step_delay 1 4 1 2 2
      = StepperMotor.calculate_step_delay (4 - 1) 4 1 2 2 :=
  velocity_symmetry_amended 1 4 2 1 2 (by decide) (by decide) (by decide)

/-- Helper: with an endstop that never reads pressed, the homing loop runs
to fuel exhaustion, emits one pulse per unit of fuel, and leaves the motor
untouched. -/
theorem homingLoop_never_pressed (endstop : ℕ → Bool)
    (hE : ∀ s, endstop s = false) :
    ∀ fuel taken (m : StepperMotor),
      StepperMotor.homingLoop endstop fuel taken m = (false, m, fuel) := by
  intro fuel
  induction fuel with
  | zero => intro taken m; rfl
  | succ n ih =>
    intro taken m
    simp [StepperMotor.homingLoop, hE taken, ih (taken + 1)]

/-- C3: for an axis whose endstop never reads pressed, hardware homing
(`_execute_homing`) emits exactly `max_position` step pulses, fails with
`HomingTimeout`, leaves the motor state (including `step_delay`, restored
by the `finally`) exactly as before, and in particular `is_homed` stays
false when it was false. -/
theorem homing_ceiling (m : StepperMotor) (endstop : ℕ → Bool)
    (home_step_delay : ℚ) (hE : ∀ s, endstop s = false) :
    m.execute_homing endstop home_step_delay
      = (some MotionError.HomingTimeout, m, m.max_position) ∧
    (m.is_homed = false →
      (m.execute_homing endstop home_step_delay).2.1.is_homed = false) := by
  have h : m.execute_homing endstop home_step_delay
      = (some MotionError.HomingTimeout, m, m.max_position) := by
    simp only [StepperMotor.execute_homing, homingLoop_never_pressed endstop hE]
    rfl
  exact ⟨h, fun hh => by rw [h]; exact hh⟩

/-- C3 witness: a concrete motor with `max_position = 20` and an endstop
that never reads pressed: homing emits 20 pulses and times out. -/
theorem homing_ceiling_witness :
    StepperMotor.execute_homing ⟨false, 20, 2, 1, 3, false, true⟩
        (fun _ => false) 5
      = (some MotionError.HomingTimeout, ⟨false, 20, 2, 1, 3, false, true⟩, 20) ∧
    ((⟨false, 20, 2, 1, 3, false, true⟩ : StepperMotor).is_homed = false →
      ((⟨false, 20, 2, 1, 3, false, true⟩ : StepperMotor).execute_homing
          (fun _ => false) 5).2.1.is_homed = false) :=
  homing_ceiling ⟨false, 20, 2, 1, 3, false, true⟩ (fun _ => false) 5
    (fun _ => rfl)

/-- Helper: with an endstop first pressed at reading `k`, the homing loop
emits exactly `k - taken` pulses from counter value `taken ≤ k`, then
zeroes the position and sets `is_homed`. -/
theorem homingLoop_first_pressed (endstop : ℕ → Bool) (k : ℕ)
    (hk : endstop k = true) (hbefore : ∀ j, j < k → endstop j = false) :
    ∀ fuel taken (m : StepperMotor), taken ≤ k → k < taken + fuel →
      StepperMotor.homingLoop endstop fuel taken m
        = (true, { m with current_position := 0, is_homed := true },
           k - taken) := by
  intro fuel
  induction fuel with
  | zero => intro taken m h1 h2; omega
  | succ n ih =>
    intro taken m h1 h2
    by_cases hke : taken = k
    · subst hke
      simp [StepperMotor.homingLoop, hk]
    · have htk : taken < k := by omega
      have hsub : k - (taken + 1) + 1 = k - taken := by omega
      simp [StepperMotor.homingLoop, hbefore taken htk,
        ih (taken + 1) m (by omega) (by omega), hsub]

/-- C5: for an axis whose endstop first reads pressed after `k <
max_position` pulses, hardware homing emits exactly `k` pulses, then sets
`current_position` to 0 and `is_homed` to true (with `step_delay` restored
by the `finally`), and returns success. -/
theorem homing_success (m : StepperMotor) (endstop : ℕ → Bool)
    (home_step_delay : ℚ) (k : ℕ) (hk : endstop k = true)
    (hbefore : ∀ j, j < k → endstop j = false)
    (hmax : k < m.max_position) :
    m.execute_homing endstop home_step_delay
      = (none, { m with current_position := 0, is_homed := true }, k) := by
  simp only [StepperMotor.execute_homing,
    homingLoop_first_pressed endstop k hk hbefore m.max_position 0 _
      (Nat.zero_le k) (by omega)]
  simp

/-- C5 witness: a concrete motor with `max_position = 20` and an endstop
first pressed at reading 7: homing emits 7 pulses and succeeds. -/
theorem homing_success_witness :
    StepperMotor.execute_homing ⟨false, 20, 2, 1, 3, false, true⟩
        (fun s => decide (7 ≤ s)) 5
      = (none, ⟨false, 20, 2, 1, 0, true, true⟩, 7) :=
  homing_success ⟨false, 20, 2, 1, 3, false, true⟩ (fun s => decide (7 ≤ s)) 5 7
    (by decide) (by decide) (by decide)

/-- C8: the single-axis `move(steps, direction)` contract, on a motor whose
position satisfies the data-model invariant `0 ≤ current_position ≤
max_position`.  A disabled motor fails with `Disabled` before anything
else; a move whose resulting position would leave `[0, max_position]`
fails with `OutOfBounds`; in both cases no pulse is emitted and the motor
is unchanged.  Otherwise exactly `steps` pulses are emitted and
`current_position` moves by `+steps` for `direction = 1` and `-steps` for
`direction = 0`. -/
theorem single_axis_move_contract (m : StepperMotor) (steps : ℕ)
    (hlo : 0 ≤ m.current_position)
    (hhi : m.current_position ≤ (m.max_position : ℤ)) :
    (m.is_enabled = false → ∀ direction,
      m.move steps direction = (some MotionError.Disabled, m, 0)) ∧
    (m.is_enabled = true →
      ¬(0 ≤ m.current_position + (steps : ℤ) ∧
        m.current_position + (steps : ℤ) ≤ (m.max_position : ℤ)) →
      m.move steps 1 = (some MotionError.OutOfBounds, m, 0)) ∧
    (m.is_enabled = true →
      ¬(0 ≤ m.current_position - (steps : ℤ) ∧
        m.current_position - (steps : ℤ) ≤ (m.max_position : ℤ)) →
      m.move steps 0 = (some MotionError.OutOfBounds, m, 0)) ∧
    (m.is_enabled = true →
      m.current_position + (steps : ℤ) ≤ (m.max_position : ℤ) →
      m.move steps 1
        = (none, { m with current_position := m.current_position + steps },
           steps)) ∧
    (m.is_enabled = true →
      0 ≤ m.current_position - (steps : ℤ) →
      m.move steps 0
        = (none, { m with current_position := m.current_position - steps },
           steps)) := by
  refine ⟨?_, ?_, ?_, ?_, ?_⟩
  · intro hdis direction
    simp [StepperMotor.move, hdis]
  · intro hen hoob
    have hgt : (m.max_position : ℤ) < m.current_position + (steps : ℤ) := by
      rcases not_and_or.mp hoob with h | h
      · omega
      · omega
    simp [StepperMotor.move, hen, StepperMotor.validate_move, hgt]
  · intro hen hoob
    have hlt : m.current_position - (steps : ℤ) < 0 := by
      rcases not_and_or.mp hoob with h | h
      · omega
      · omega
    simp [StepperMotor.move, hen, StepperMotor.validate_move, hlt]
  · intro hen hok
    have hno : ¬((m.max_position : ℤ) < m.current_position + (steps : ℤ)) := by
      omega
    simp [StepperMotor.move, hen, StepperMotor.validate_move, hno,
      StepperMotor.update_position]
  · intro hen hok
    have hno : ¬(m.current_position - (steps : ℤ) < 0) := by omega
    simp [StepperMotor.move, hen, StepperMotor.validate_move, hno,
      StepperMotor.update_position]

/-- C8 witness: a concrete enabled motor at position 5 with
`max_position = 10`: `move 3 1` succeeds with 3 pulses to position 8, and
the same motor disabled rejects the move unchanged. -/
theorem single_axis_move_contract_witness :
    StepperMotor.move ⟨false, 10, 2, 1, 5, true, true⟩ 3 1
      = (none, ⟨false, 10, 2, 1, 8, true, true⟩, 3) ∧
    StepperMotor.move ⟨false, 10, 2, 1, 5, true, false⟩ 3 1
      = (some MotionError.Disabled, ⟨false, 10, 2, 1, 5, true, false⟩, 0) := by
  constructor
  · have h := (single_axis_move_contract ⟨false, 10, 2, 1, 5, true, true⟩ 3
      (by decide) (by decide)).2.2.2.1 rfl (by decide)
    rw [h]
    rfl
  · exact (single_axis_move_contract ⟨false, 10, 2, 1, 5, true, false⟩ 3
      (by decide) (by decide)).1 rfl 1

/-- Helper: accumulating events preserves the number of steps. -/
theorem accumulateEvents_length (pin : ℕ) :
    ∀ (l : List (ℕ × ℚ)) (t : ℚ),
      (PigpioWaveGenerator.accumulateEvents pin t l).length = l.length := by
  intro l
  induction l with
  | nil => intro t; rfl
  | cons hd tl ih =>
    intro t
    simp [PigpioWaveGenerator.accumulateEvents, ih]

/-- Helper: the `k`-th accumulated event of one axis occurs at the running
start time plus the sum of that axis's first `k+1` delays, on that axis's
pin. -/
theorem accumulateEvents_getElem (pin : ℕ) :
    ∀ (l : List (ℕ × ℚ)) (t : ℚ) (k : ℕ), k < l.length →
      (PigpioWaveGenerator.accumulateEvents pin t l)[k]?
        = some (t + ((l.take (k + 1)).map Prod.snd).sum, pin) := by
  intro l
  induction l with
  | nil => intro t k hk; simp at hk
  | cons hd tl ih =>
    intro t k hk
    cases k with
    | zero =>
      simp [PigpioWaveGenerator.accumulateEvents]
    | succ n =>
      have hn : n < tl.length := by simpa using hk
      simp only [PigpioWaveGenerator.accumulateEvents, List.getElem?_cons_succ,
        ih (t + hd.2) n hn, List.take_succ_cons, List.map_cons, List.sum_cons]
      rw [add_assoc]

/-- C9: the merged event list of `_merge_step_timelines` contains exactly
one event per input step of each axis (it is a permutation of the two
accumulated per-axis event lists, and has their total length); the `k`-th
event of an axis occurs at the sum of that axis's first `k+1` delays, on
that axis's pin; and the merged list is sorted ascending by absolute
time. -/
theorem merge_timelines_spec (xs ys : List (ℕ × ℚ)) (px py : ℕ) :
    (PigpioWaveGenerator.merge_step_timelines xs ys px py).length
      = xs.length + ys.length ∧
    (PigpioWaveGenerator.merge_step_timelines xs ys px py).Perm
      (PigpioWaveGenerator.accumulateEvents px 0 xs
        ++ PigpioWaveGenerator.accumulateEvents py 0 ys) ∧
    (PigpioWaveGenerator.merge_step_timelines xs ys px py).Pairwise
      (fun a b => a.1 ≤ b.1) ∧
    (∀ k, k < xs.length →
      (PigpioWaveGenerator.accumulateEvents px 0 xs)[k]?
        = some (((xs.take (k + 1)).map Prod.snd).sum, px)) ∧
    (∀ k, k < ys.length →
      (PigpioWaveGenerator.accumulateEvents py 0 ys)[k]?
        = some (((ys.take (k + 1)).map Prod.snd).sum, py)) := by
  refine ⟨?_, ?_, ?_, ?_, ?_⟩
  · simp [PigpioWaveGenerator.merge_step_timelines, accumulateEvents_length]
  · exact List.mergeSort_perm _ _
  · simp only [PigpioWaveGenerator.merge_step_timelines]
    refine List.Pairwise.imp (fun hab => of_decide_eq_true hab)
      (List.sorted_mergeSort ?_ ?_ _)
    · intro a b d hab hbd
      exact decide_eq_true
        (le_trans (of_decide_eq_true hab) (of_decide_eq_true hbd))
    · intro a b
      simp only [Bool.or_eq_true, decide_eq_true_eq]
      exact le_total a.1 b.1
  · intro k hk
    rw [accumulateEvents_getElem px xs 0 k hk, zero_add]
  · intro k hk
    rw [accumulateEvents_getElem py ys 0 k hk, zero_add]

/-- C9 witness: concrete timelines with X delays `[3, 3]` on pin 17 and Y
delays `[2, 2, 2]` on pin 27: five merged events, and the second X event
occurs at time `3 + 3 = 6`. -/
theorem merge_timelines_spec_witness :
    (PigpioWaveGenerator.merge_step_timelines
        [((0:ℕ), (3:ℚ)), (1, 3)] [((0:ℕ), (2:ℚ)), (1, 2), (2, 2)]
        17 27).length = 5 ∧
    (PigpioWaveGenerator.accumulateEvents 17 0 [((0:ℕ), (3:ℚ)), (1, 3)])[1]?
      = some (6, 17) := by
  have h := merge_timelines_spec [((0:ℕ), (3:ℚ)), (1, 3)]
    [((0:ℕ), (2:ℚ)), (1, 2), (2, 2)] 17 27
  refine ⟨h.1, ?_⟩
  have h2 := h.2.2.2.1 1 (by decide)
  rw [h2]
  norm_num

/-- Helper: one iteration of the x-dominant Bresenham loop preserves the
loop invariant, advancing the dominant counter by one. -/
theorem xInv_step (c : MotorController) (dx dy : ℕ) (xd yd : Bool)
    (boost : ℚ) (hdom : dy < dx) (k : ℕ) (s : MotorController.LoopState)
    (h : MotorController.XInv c dx dy xd yd boost k s) :
    MotorController.XInv c dx dy xd yd boost (k + 1)
      (MotorController.xDominantIter c dx dy xd yd boost s) := by
  obtain ⟨h1, h2, h3, h4, h5, h6, h7, h8, h9, h10, h11⟩ := h
  have hdyx : (dy : ℚ) < (dx : ℚ) := by exact_mod_cast hdom
  have hdy0 : (0 : ℚ) ≤ (dy : ℚ) := by positivity
  push_cast at h2
  rcases Bool.dichotomy c.enable_acceleration with hacc | hacc <;>
    simp only [MotorController.xDominantIter, hacc, Bool.false_eq_true,
      if_false, if_true] <;>
    by_cases herr : s.error - (dy : ℚ) < 0
  -- acceleration off, minor-axis step taken
  · rw [if_pos herr]
    simp only [MotorController.XInv]
    refine ⟨by simp [h1], ?_, by linarith, by linarith, ?_, ?_, ?_, ?_, ?_,
      ?_, ?_⟩
    · push_cast
      linarith
    · rcases xd <;> simp [h5] <;> push_cast <;> ring
    · rcases yd <;> simp [h6] <;> push_cast <;> ring
    · simp [List.filter_append, h7, h1]
    · simp [List.filter_append, h8]
    · simp [h9]
      omega
    · intro p hp
      simp only [List.append_assoc, List.mem_append, List.mem_singleton] at hp
      rcases hp with hp | hp | hp
      · exact h10 p hp
      · subst hp
        simp [MotorController.pulseOk, MotorController.xDelaySpec, hacc,
          (h11 hacc).1]
      · subst hp
        simp [MotorController.pulseOk, MotorController.yDelaySpec, hacc,
          (h11 hacc).2]
    · intro hoff
      exact ⟨(h11 hoff).1, (h11 hoff).2⟩
  -- acceleration off, no minor-axis step
  · rw [if_neg herr]
    simp only [MotorController.XInv]
    refine ⟨by simp [h1], ?_, by linarith, by linarith, ?_, h6, ?_, ?_, ?_,
      ?_, ?_⟩
    · push_cast
      linarith
    · rcases xd <;> simp [h5] <;> push_cast <;> ring
    · simp [List.filter_append, h7, h1]
    · simp [List.filter_append, h8]
    · simp [h9]
      omega
    · intro p hp
      simp only [List.mem_append, List.mem_singleton] at hp
      rcases hp with hp | hp
      · exact h10 p hp
      · subst hp
        simp [MotorController.pulseOk, MotorController.xDelaySpec, hacc,
          (h11 hacc).1]
    · intro hoff
      exact ⟨(h11 hoff).1, (h11 hoff).2⟩
  -- acceleration on, minor-axis step taken
  · rw [if_pos herr]
    simp only [MotorController.XInv]
    refine ⟨by simp [h1], ?_, by linarith, by linarith, ?_, ?_, ?_, ?_, ?_,
      ?_, ?_⟩
    · push_cast
      linarith
    · rcases xd <;> simp [h5] <;> push_cast <;> ring
    · rcases yd <;> simp [h6] <;> push_cast <;> ring
    · simp [List.filter_append, h7, h1]
    · simp [List.filter_append, h8]
    · simp [h9]
      omega
    · intro p hp
      simp only [List.append_assoc, List.mem_append, List.mem_singleton] at hp
      rcases hp with hp | hp | hp
      · exact h10 p hp
      · subst hp
        simp [MotorController.pulseOk, MotorController.xDelaySpec, hacc]
      · subst hp
        simp [MotorController.pulseOk, MotorController.yDelaySpec, hacc]
    · intro hoff
      rw [hoff] at hacc
      simp at hacc
  -- acceleration on, no minor-axis step
  · rw [if_neg herr]
    simp only [MotorController.XInv]
    refine ⟨by simp [h1], ?_, by linarith, by linarith, ?_, h6, ?_, ?_, ?_,
      ?_, ?_⟩
    · push_cast
      linarith
    · rcases xd <;> simp [h5] <;> push_cast <;> ring
    · simp [List.filter_append, h7, h1]
    · simp [List.filter_append, h8]
    · simp [h9]
      omega
    · intro p hp
      simp only [List.mem_append, List.mem_singleton] at hp
      rcases hp with hp | hp
      · exact h10 p hp
      · subst hp
        simp [MotorController.pulseOk, MotorController.xDelaySpec, hacc]
    · intro hoff
      rw [hoff] at hacc
      simp at hacc

/-- Helper: the x-dominant loop invariant holds after any number of
iterations from the initial state of `_execute_x_dominant_move`. -/
theorem xInv_iterate (c : MotorController) (dx dy : ℕ) (xd yd : Bool)
    (boost : ℚ) (hdom : dy < dx) :
    ∀ k, MotorController.XInv c dx dy xd yd boost k
      ((MotorController.xDominantIter c dx dy xd yd boost)^[k]
        ⟨c.motor_x, c.motor_y, (dx : ℚ) / 2, 0, 0, []⟩) := by
  intro k
  induction k with
  | zero =>
    have hdx : (0 : ℚ) < (dx : ℚ) := by
      exact_mod_cast Nat.lt_of_le_of_lt (Nat.zero_le dy) hdom
    simp only [Function.iterate_zero_apply]
    refine ⟨rfl, by push_cast; ring, by positivity, by linarith, by simp,
      by simp, rfl, rfl, rfl, by simp, fun _ => ⟨rfl, rfl⟩⟩
  | succ n ih =>
    rw [Function.iterate_succ_apply']
    exact xInv_step c dx dy xd yd boost hdom n _ ih

/-- Helper: after the x-dominant Bresenham loop of
`_execute_x_dominant_move` (called for `abs_dy < abs_dx`), the dominant
axis has taken exactly `abs_dx` steps, the minor axis exactly `abs_dy`
steps, both positions moved by exactly the step counts in the commanded
directions, and every recorded pulse carries the velocity-profile delay. -/
theorem xDom_spec (c : MotorController) (dx dy : ℕ) (xd yd : Bool)
    (boost : ℚ) (hdom : dy < dx) :
    (MotorController.execute_x_dominant_move c dx dy xd yd boost).x_step_count
        = dx ∧
    (MotorController.execute_x_dominant_move c dx dy xd yd boost).y_step_count
        = dy ∧
    (MotorController.execute_x_dominant_move c dx dy xd yd
        boost).mx.current_position
      = c.motor_x.current_position + (if xd then (dx : ℤ) else -(dx : ℤ)) ∧
    (MotorController.execute_x_dominant_move c dx dy xd yd
        boost).my.current_position
      = c.motor_y.current_position + (if yd then (dy : ℤ) else -(dy : ℤ)) ∧
    ((MotorController.execute_x_dominant_move c dx dy xd yd
        boost).pulses.filter fun p => p.axis = Axis.x).length = dx ∧
    ((MotorController.execute_x_dominant_move c dx dy xd yd
        boost).pulses.filter fun p => p.axis = Axis.y).length = dy ∧
    (MotorController.execute_x_dominant_move c dx dy xd yd
        boost).pulses.length = dx + dy ∧
    (∀ p ∈ (MotorController.execute_x_dominant_move c dx dy xd yd
        boost).pulses, c.pulseOk dx dy boost p) := by
  obtain ⟨h1, h2, h3, h4, h5, h6, h7, h8, h9, h10, h11⟩ :=
    xInv_iterate c dx dy xd yd boost hdom dx
  have hdx : (0 : ℚ) < (dx : ℚ) := by
    exact_mod_cast Nat.lt_of_le_of_lt (Nat.zero_le dy) hdom
  simp only [MotorController.execute_x_dominant_move]
  set S := (MotorController.xDominantIter c dx dy xd yd boost)^[dx]
    ⟨c.motor_x, c.motor_y, (dx : ℚ) / 2, 0, 0, []⟩ with hS
  have hup : (S.y_step_count : ℚ) < (dy : ℚ) + 1 := by nlinarith
  have hdn : (dy : ℚ) < (S.y_step_count : ℚ) + 1 := by nlinarith
  have hup' : S.y_step_count < dy + 1 := by exact_mod_cast hup
  have hdn' : dy < S.y_step_count + 1 := by exact_mod_cast hdn
  have hyc : S.y_step_count = dy := by omega
  exact ⟨h1, hyc, h5, by rw [h6, hyc], h7, by rw [h8, hyc],
    by rw [h9, hyc], h10⟩

/-- Helper: one iteration of the y-dominant Bresenham loop preserves the
mirrored loop invariant, advancing the dominant counter by one. -/
theorem yInv_step (c : MotorController) (dx dy : ℕ) (xd yd : Bool)
    (boost : ℚ) (hdom : dx ≤ dy) (k : ℕ) (s : MotorController.LoopState)
    (h : MotorController.YInv c dx dy xd yd boost k s) :
    MotorController.YInv c dx dy xd yd boost (k + 1)
      (MotorController.yDominantIter c dx dy xd yd boost s) := by
  obtain ⟨h1, h2, h3, h4, h5, h6, h7, h8, h9, h10, h11⟩ := h
  have hdxy : (dx : ℚ) ≤ (dy : ℚ) := by exact_mod_cast hdom
  have hdx0 : (0 : ℚ) ≤ (dx : ℚ) := by positivity
  push_cast at h2
  rcases Bool.dichotomy c.enable_acceleration with hacc | hacc <;>
    simp only [MotorController.yDominantIter, hacc, Bool.false_eq_true,
      if_false, if_true] <;>
    by_cases herr : s.error - (dx : ℚ) < 0
  -- acceleration off, minor-axis step taken
  · rw [if_pos herr]
    simp only [MotorController.YInv]
    refine ⟨by simp [h1], ?_, by linarith, by linarith, ?_, ?_, ?_, ?_, ?_,
      ?_, ?_⟩
    · push_cast
      linarith
    · rcases yd <;> simp [h5] <;> push_cast <;> ring
    · rcases xd <;> simp [h6] <;> push_cast <;> ring
    · simp [List.filter_append, h7, h1]
    · simp [List.filter_append, h8]
    · simp [h9]
      omega
    · intro p hp
      simp only [List.append_assoc, List.mem_append, List.mem_singleton] at hp
      rcases hp with hp | hp | hp
      · exact h10 p hp
      · subst hp
        simp [MotorController.pulseOk, MotorController.yDelaySpec, hacc,
          (h11 hacc).2]
      · subst hp
        simp [MotorController.pulseOk, MotorController.xDelaySpec, hacc,
          (h11 hacc).1]
    · intro hoff
      exact ⟨(h11 hoff).1, (h11 hoff).2⟩
  -- acceleration off, no minor-axis step
  · rw [if_neg herr]
    simp only [MotorController.YInv]
    refine ⟨by simp [h1], ?_, by linarith, by linarith, ?_, h6, ?_, ?_, ?_,
      ?_, ?_⟩
    · push_cast
      linarith
    · rcases yd <;> simp [h5] <;> push_cast <;> ring
    · simp [List.filter_append, h7, h1]
    · simp [List.filter_append, h8]
    · simp [h9]
      omega
    · intro p hp
      simp only [List.mem_append, List.mem_singleton] at hp
      rcases hp with hp | hp
      · exact h10 p hp
      · subst hp
        simp [MotorController.pulseOk, MotorController.yDelaySpec, hacc,
          (h11 hacc).2]
    · intro hoff
      exact ⟨(h11 hoff).1, (h11 hoff).2⟩
  -- acceleration on, minor-axis step taken
  · rw [if_pos herr]
    simp only [MotorController.YInv]
    refine ⟨by simp [h1], ?_, by linarith, by linarith, ?_, ?_, ?_, ?_, ?_,
      ?_, ?_⟩
    · push_cast
      linarith
    · rcases yd <;> simp [h5] <;> push_cast <;> ring
    · rcases xd <;> simp [h6] <;> push_cast <;> ring
    · simp [List.filter_append, h7, h1]
    · simp [List.filter_append, h8]
    · simp [h9]
      omega
    · intro p hp
      simp only [List.append_assoc, List.mem_append, List.mem_singleton] at hp
      rcases hp with hp | hp | hp
      · exact h10 p hp
      · subst hp
        simp [MotorController.pulseOk, MotorController.yDelaySpec, hacc]
      · subst hp
        simp [MotorController.pulseOk, MotorController.xDelaySpec, hacc]
    · intro hoff
      rw [hoff] at hacc
      simp at hacc
  -- acceleration on, no minor-axis step
  · rw [if_neg herr]
    simp only [MotorController.YInv]
    refine ⟨by simp [h1], ?_, by linarith, by linarith, ?_, h6, ?_, ?_, ?_,
      ?_, ?_⟩
    · push_cast
      linarith
    · rcases yd <;> simp [h5] <;> push_cast <;> ring
    · simp [List.filter_append, h7, h1]
    · simp [List.filter_append, h8]
    · simp [h9]
      omega
    · intro p hp
      simp only [List.mem_append, List.mem_singleton] at hp
      rcases hp with hp | hp
      · exact h10 p hp
      · subst hp
        simp [MotorController.pulseOk, MotorController.yDelaySpec, hacc]
    · intro hoff
      rw [hoff] at hacc
      simp at hacc

/-- Helper: the y-dominant loop invariant holds after any number of
iterations from the initial state of `_execute_y_dominant_move`. -/
theorem yInv_iterate (c : MotorController) (dx dy : ℕ) (xd yd : Bool)
    (boost : ℚ) (hdom : dx ≤ dy) (hpos : 0 < dy) :
    ∀ k, MotorController.YInv c dx dy xd yd boost k
      ((MotorController.yDominantIter c dx dy xd yd boost)^[k]
        ⟨c.motor_x, c.motor_y, (dy : ℚ) / 2, 0, 0, []⟩) := by
  intro k
  induction k with
  | zero =>
    have hdy : (0 : ℚ) < (dy : ℚ) := by exact_mod_cast hpos
    simp only [Function.iterate_zero_apply]
    refine ⟨rfl, by push_cast; ring, by positivity, by linarith, by simp,
      by simp, rfl, rfl, rfl, by simp, fun _ => ⟨rfl, rfl⟩⟩
  | succ n ih =>
    rw [Function.iterate_succ_apply']
    exact yInv_step c dx dy xd yd boost hdom n _ ih

/-- Helper: after the y-dominant Bresenham loop of
`_execute_y_dominant_move` (called for `abs_dx ≤ abs_dy`), the dominant
axis has taken exactly `abs_dy` steps, the minor axis exactly `abs_dx`
steps, both positions moved by exactly the step counts in the commanded
directions, and every recorded pulse carries the velocity-profile delay. -/
theorem yDom_spec (c : MotorController) (dx dy : ℕ) (xd yd : Bool)
    (boost : ℚ) (hdom : dx ≤ dy) (hpos : 0 < dy) :
    (MotorController.execute_y_dominant_move c dx dy xd yd boost).y_step_count
        = dy ∧
    (MotorController.execute_y_dominant_move c dx dy xd yd boost).x_step_count
        = dx ∧
    (MotorController.execute_y_dominant_move c dx dy xd yd
        boost).mx.current_position
      = c.motor_x.current_position + (if xd then (dx : ℤ) else -(dx : ℤ)) ∧
    (MotorController.execute_y_dominant_move c dx dy xd yd
        boost).my.current_position
      = c.motor_y.current_position + (if yd then (dy : ℤ) else -(dy : ℤ)) ∧
    ((MotorController.execute_y_dominant_move c dx dy xd yd
        boost).pulses.filter fun p => p.axis = Axis.x).length = dx ∧
    ((MotorController.execute_y_dominant_move c dx dy xd yd
        boost).pulses.filter fun p => p.axis = Axis.y).length = dy ∧
    (MotorController.execute_y_dominant_move c dx dy xd yd
        boost).pulses.length = dx + dy ∧
    (∀ p ∈ (MotorController.execute_y_dominant_move c dx dy xd yd
        boost).pulses, c.pulseOk dx dy boost p) := by
  obtain ⟨h1, h2, h3, h4, h5, h6, h7, h8, h9, h10, h11⟩ :=
    yInv_iterate c dx dy xd yd boost hdom hpos dy
  have hdy : (0 : ℚ) < (dy : ℚ) := by exact_mod_cast hpos
  simp only [MotorController.execute_y_dominant_move]
  set S := (MotorController.yDominantIter c dx dy xd yd boost)^[dy]
    ⟨c.motor_x, c.motor_y, (dy : ℚ) / 2, 0, 0, []⟩ with hS
  have hup : (S.x_step_count : ℚ) < (dx : ℚ) + 1 := by nlinarith
  have hdn : (dx : ℚ) < (S.x_step_count : ℚ) + 1 := by nlinarith
  have hup' : S.x_step_count < dx + 1 := by exact_mod_cast hup
  have hdn' : dx < S.x_step_count + 1 := by exact_mod_cast hdn
  have hxc : S.x_step_count = dx := by omega
  exact ⟨h1, hxc, by rw [h6, hxc], h5, by rw [h8, hxc], h7,
    by rw [h9, hxc]; omega, h10⟩

/-- Helper: full characterization of a successful coordinated move along
the software-timed path: no error, both positions change by exactly the
requested deltas, the X axis is pulsed exactly `|dx|` times and the Y axis
exactly `|dy|` times, and every recorded pulse carries its axis's
velocity-profile delay scaled by the diagonal boost. -/
theorem move_coordinated_spec (c : MotorController) (dx dy : ℤ)
    (hx0 : 0 ≤ c.motor_x.current_position + dx)
    (hx1 : c.motor_x.current_position + dx ≤ (c.motor_x.max_position : ℤ))
    (hy0 : 0 ≤ c.motor_y.current_position + dy)
    (hy1 : c.motor_y.current_position + dy ≤ (c.motor_y.max_position : ℤ)) :
    (c.move_coordinated dx dy).1 = none ∧
    (c.move_coordinated dx dy).2.1.motor_x.current_position
      = c.motor_x.current_position + dx ∧
    (c.move_coordinated dx dy).2.1.motor_y.current_position
      = c.motor_y.current_position + dy ∧
    ((c.move_coordinated dx dy).2.2.filter
        fun p => p.axis = Axis.x).length = dx.natAbs ∧
    ((c.move_coordinated dx dy).2.2.filter
        fun p => p.axis = Axis.y).length = dy.natAbs ∧
    (c.move_coordinated dx dy).2.2.length = dx.natAbs + dy.natAbs ∧
    (∀ p ∈ (c.move_coordinated dx dy).2.2,
      c.pulseOk dx.natAbs dy.natAbs
        (if 0 < dx.natAbs ∧ 0 < dy.natAbs then (7 : ℚ)/10 else 1) p) := by
  by_cases h0 : dx = 0 ∧ dy = 0
  · obtain ⟨hx, hy⟩ := h0
    subst hx
    subst hy
    simp [MotorController.move_coordinated]
  · have hbx : ¬(c.motor_x.current_position + dx < 0 ∨
        (c.motor_x.max_position : ℤ) < c.motor_x.current_position + dx) := by
      omega
    have hby : ¬(c.motor_y.current_position + dy < 0 ∨
        (c.motor_y.max_position : ℤ) < c.motor_y.current_position + dy) := by
      omega
    simp only [MotorController.move_coordinated, if_neg h0, if_neg hbx,
      if_neg hby, MotorController.move_coordinated_with_sleep]
    by_cases hdom : dy.natAbs < dx.natAbs
    · obtain ⟨g1, g2, g3, g4, g5, g6, g7, g8⟩ :=
        xDom_spec c dx.natAbs dy.natAbs (decide (0 < dx)) (decide (0 < dy))
          (if 0 < dx.natAbs ∧ 0 < dy.natAbs then (7 : ℚ)/10 else 1) hdom
      rw [if_pos hdom]
      exact ⟨trivial, trivial, trivial, g5, g6, g7, g8⟩
    · have hle : dx.natAbs ≤ dy.natAbs := by omega
      have hpos : 0 < dy.natAbs := by omega
      obtain ⟨g1, g2, g3, g4, g5, g6, g7, g8⟩ :=
        yDom_spec c dx.natAbs dy.natAbs (decide (0 < dx)) (decide (0 < dy))
          (if 0 < dx.natAbs ∧ 0 < dy.natAbs then (7 : ℚ)/10 else 1) hle hpos
      rw [if_neg hdom]
      exact ⟨trivial, trivial, trivial, g5, g6, g7, g8⟩

/-- C1: for every delta pair `(dx, dy)` whose targets lie within both axes'
bounds, the coordinated move (`move_relative`, hence also `move_to`'s
delegation) succeeds, changes `motor_x.current_position` by exactly `dx`
and `motor_y.current_position` by exactly `dy` (including the `(0,0)`
no-op), and in the Bresenham loop the X axis is pulsed exactly `|dx|`
times and the Y axis exactly `|dy|` times — so the dominant axis takes
exactly `max(|dx|,|dy|)` steps and the minor axis exactly
`min(|dx|,|dy|)` steps, for every ratio `dx:dy`. -/
theorem bresenham_exactness (c : MotorController) (dx dy : ℤ)
    (hx0 : 0 ≤ c.motor_x.current_position + dx)
    (hx1 : c.motor_x.current_position + dx ≤ (c.motor_x.max_position : ℤ))
    (hy0 : 0 ≤ c.motor_y.current_position + dy)
    (hy1 : c.motor_y.current_position + dy ≤ (c.motor_y.max_position : ℤ)) :
    (c.move_relative dx dy).1 = none ∧
    (c.move_relative dx dy).2.1.motor_x.current_position
      = c.motor_x.current_position + dx ∧
    (c.move_relative dx dy).2.1.motor_y.current_position
      = c.motor_y.current_position + dy ∧
    ((c.move_relative dx dy).2.2.filter
        fun p => p.axis = Axis.x).length = dx.natAbs ∧
    ((c.move_relative dx dy).2.2.filter
        fun p => p.axis = Axis.y).length = dy.natAbs ∧
    (c.move_relative dx dy).2.2.length
      = max dx.natAbs dy.natAbs + min dx.natAbs dy.natAbs := by
  obtain ⟨g1, g2, g3, g4, g5, g6, g7⟩ :=
    move_coordinated_spec c dx dy hx0 hx1 hy0 hy1
  refine ⟨g1, g2, g3, g4, g5, ?_⟩
  have h6 : (c.move_relative dx dy).2.2.length = dx.natAbs + dy.natAbs := g6
  omega

/-- C1 witness: the theorem applied to a concrete homed controller at
position `(10, 10)` with `max_position = 1000` and the move `(3, -2)`:
success, final positions `(13, 8)`, 3 X pulses, 2 Y pulses, and
`3 + 2 = max + min` total pulses. -/
theorem bresenham_exactness_witness :
    ((⟨⟨false, 1000, 2, 1, 10, true, true⟩, ⟨false, 1000, 2, 1, 10, true, true⟩,
        true, 1, 4, 2⟩ : MotorController).move_relative 3 (-2)).1 = none ∧
    ((⟨⟨false, 1000, 2, 1, 10, true, true⟩, ⟨false, 1000, 2, 1, 10, true, true⟩,
        true, 1, 4, 2⟩ : MotorController).move_relative 3
        (-2)).2.1.motor_x.current_position = 10 + 3 ∧
    ((⟨⟨false, 1000, 2, 1, 10, true, true⟩, ⟨false, 1000, 2, 1, 10, true, true⟩,
        true, 1, 4, 2⟩ : MotorController).move_relative 3
        (-2)).2.1.motor_y.current_position = 10 + -2 ∧
    (((⟨⟨false, 1000, 2, 1, 10, true, true⟩, ⟨false, 1000, 2, 1, 10, true, true⟩,
        true, 1, 4, 2⟩ : MotorController).move_relative 3 (-2)).2.2.filter
        fun p => p.axis = Axis.x).length = 3 ∧
    (((⟨⟨false, 1000, 2, 1, 10, true, true⟩, ⟨false, 1000, 2, 1, 10, true, true⟩,
        true, 1, 4, 2⟩ : MotorController).move_relative 3 (-2)).2.2.filter
        fun p => p.axis = Axis.y).length = 2 ∧
    ((⟨⟨false, 1000, 2, 1, 10, true, true⟩, ⟨false, 1000, 2, 1, 10, true, true⟩,
        true, 1, 4, 2⟩ : MotorController).move_relative 3 (-2)).2.2.length
      = max 3 2 + min 3 2 :=
  bresenham_exactness
    ⟨⟨false, 1000, 2, 1, 10, true, true⟩, ⟨false, 1000, 2, 1, 10, true, true⟩,
      true, 1, 4, 2⟩ 3 (-2) (by decide) (by decide) (by decide) (by decide)

/-- C2: on a controller whose axes satisfy the data-model position
invariant, any coordinated move whose resulting absolute position on
either axis would fall outside that axis's `[0, max_position]` fails with
`OutOfBounds`, emits no step pulse, and leaves the whole controller (both
axes' `current_position` in particular) unchanged — both bounds are
checked before either axis is touched. -/
theorem bounds_atomicity (c : MotorController) (dx dy : ℤ)
    (hcx0 : 0 ≤ c.motor_x.current_position)
    (hcx1 : c.motor_x.current_position ≤ (c.motor_x.max_position : ℤ))
    (hcy0 : 0 ≤ c.motor_y.current_position)
    (hcy1 : c.motor_y.current_position ≤ (c.motor_y.max_position : ℤ))
    (hoob : c.motor_x.current_position + dx < 0 ∨
      (c.motor_x.max_position : ℤ) < c.motor_x.current_position + dx ∨
      c.motor_y.current_position + dy < 0 ∨
      (c.motor_y.max_position : ℤ) < c.motor_y.current_position + dy) :
    c.move_relative dx dy = (some MotionError.OutOfBounds, c, []) := by
  have h0 : ¬(dx = 0 ∧ dy = 0) := by
    rintro ⟨rfl, rfl⟩
    omega
  simp only [MotorController.move_relative, MotorController.move_coordinated,
    if_neg h0]
  by_cases hbx : c.motor_x.current_position + dx < 0 ∨
      (c.motor_x.max_position : ℤ) < c.motor_x.current_position + dx
  · rw [if_pos hbx]
  · have hby : c.motor_y.current_position + dy < 0 ∨
        (c.motor_y.max_position : ℤ) < c.motor_y.current_position + dy := by
      omega
    rw [if_neg hbx, if_pos hby]

/-- C2 witness: the theorem applied to a concrete controller at `(10, 10)`
with `max_position = 1000` and the move `(-20, 0)`, whose X target `-10`
is out of bounds. -/
theorem bounds_atomicity_witness :
    (⟨⟨false, 1000, 2, 1, 10, true, true⟩, ⟨false, 1000, 2, 1, 10, true, true⟩,
        true, 1, 4, 2⟩ : MotorController).move_relative (-20) 0
      = (some MotionError.OutOfBounds,
         ⟨⟨false, 1000, 2, 1, 10, true, true⟩,
          ⟨false, 1000, 2, 1, 10, true, true⟩, true, 1, 4, 2⟩, []) :=
  bounds_atomicity
    ⟨⟨false, 1000, 2, 1, 10, true, true⟩, ⟨false, 1000, 2, 1, 10, true, true⟩,
      true, 1, 4, 2⟩ (-20) 0 (by decide) (by decide) (by decide) (by decide)
    (by decide)

/-- C7 counterexample: with acceleration disabled, the software-timed path
applies no diagonal factor at all.  On a controller with both motors'
`step_delay = 1` and `enable_acceleration = false`, the diagonal move
`(1, 1)` emits its pulses with the unscaled delay 1 — the same delay the
pure-horizontal move `(1, 0)` uses — and `1 ≠ 0.7 · 1`, so the per-step
delays of a diagonal move are not multiplied by the 0.7 factor. -/
theorem diagonal_boost_counterexample :
    ((⟨⟨false, 10, 1, 1, 0, true, true⟩, ⟨false, 10, 1, 1, 0, true, true⟩,
        false, 1, 4, 2⟩ : MotorController).move_relative 1 1).2.2.map
        Pulse.delay = [1, 1] ∧
    ((⟨⟨false, 10, 1, 1, 0, true, true⟩, ⟨false, 10, 1, 1, 0, true, true⟩,
        false, 1, 4, 2⟩ : MotorController).move_relative 1 0).2.2.map
        Pulse.delay = [1] ∧
    ¬((1 : ℚ) = 7/10 * 1) := by
  refine ⟨?_, ?_, by norm_num⟩ <;>
    norm_num [MotorController.move_relative, MotorController.move_coordinated,
      MotorController.move_coordinated_with_sleep,
      MotorController.execute_y_dominant_move,
      MotorController.execute_x_dominant_move,
      MotorController.yDominantIter, MotorController.xDominantIter,
      Function.iterate_one]

/-- C7 amended: the diagonal factor 0.7 is applied to the per-step delays
exactly when both `|dx| > 0` and `|dy| > 0` — on the hardware-timed
timelines unconditionally (whatever the acceleration flag), and on the
software-timed path whenever acceleration is enabled; with acceleration
disabled the software-timed path uses the motors' existing `step_delay`
unscaled on every move, diagonal included (pure-axis moves are unscaled
in all cases, factor 1). -/
theorem diagonal_boost_amended (c : MotorController) (dx dy : ℤ)
    (hx0 : 0 ≤ c.motor_x.current_position + dx)
    (hx1 : c.motor_x.current_position + dx ≤ (c.motor_x.max_position : ℤ))
    (hy0 : 0 ≤ c.motor_y.current_position + dy)
    (hy1 : c.motor_y.current_position + dy ≤ (c.motor_y.max_position : ℤ)) :
    (c.enable_acceleration = true →
      ∀ p ∈ (c.move_relative dx dy).2.2,
        p.delay = (match p.axis with
          | Axis.x => StepperMotor.calculate_step_delay p.idx dx.natAbs
              c.min_step_delay c.max_step_delay c.accel_steps
          | Axis.y => StepperMotor.calculate_step_delay p.idx dy.natAbs
              c.min_step_delay c.max_step_delay c.accel_steps)
          * (if 0 < dx.natAbs ∧ 0 < dy.natAbs then (7 : ℚ)/10 else 1)) ∧
    (c.enable_acceleration = false →
      ∀ p ∈ (c.move_relative dx dy).2.2,
        p.delay = match p.axis with
          | Axis.x => c.motor_x.step_delay
          | Axis.y => c.motor_y.step_delay) ∧
    (∀ abs_dx abs_dy : ℕ, ∀ q ∈ (c.pigpio_step_timelines abs_dx abs_dy).1,
      q.2 = ((if c.enable_acceleration then
            StepperMotor.calculate_step_delay q.1 abs_dx
              c.min_step_delay c.max_step_delay c.accel_steps
          else c.min_step_delay) + c.motor_x.step_pulse_duration)
        * (if 0 < abs_dx ∧ 0 < abs_dy then (7 : ℚ)/10 else 1)) ∧
    (∀ abs_dx abs_dy : ℕ, ∀ q ∈ (c.pigpio_step_timelines abs_dx abs_dy).2,
      q.2 = ((if c.enable_acceleration then
            StepperMotor.calculate_step_delay q.1 abs_dy
              c.min_step_delay c.max_step_delay c.accel_steps
          else c.min_step_delay) + c.motor_x.step_pulse_duration)
        * (if 0 < abs_dx ∧ 0 < abs_dy then (7 : ℚ)/10 else 1)) := by
  refine ⟨?_, ?_, ?_, ?_⟩
  · intro haccel p hp
    have hok := (move_coordinated_spec c dx dy hx0 hx1 hy0 hy1).2.2.2.2.2.2
      p hp
    rcases p with ⟨ax, i, d⟩
    cases ax
    · simpa [MotorController.pulseOk, MotorController.xDelaySpec, haccel]
        using hok
    · simpa [MotorController.pulseOk, MotorController.yDelaySpec, haccel]
        using hok
  · intro hoff p hp
    have hok := (move_coordinated_spec c dx dy hx0 hx1 hy0 hy1).2.2.2.2.2.2
      p hp
    rcases p with ⟨ax, i, d⟩
    cases ax
    · simpa [MotorController.pulseOk, MotorController.xDelaySpec, hoff]
        using hok
    · simpa [MotorController.pulseOk, MotorController.yDelaySpec, hoff]
        using hok
  · intro abs_dx abs_dy q hq
    simp only [MotorController.pigpio_step_timelines,
      MotorController.build_step_timeline, List.map_map, List.mem_map,
      List.mem_range, Function.comp] at hq
    obtain ⟨n, hn, hq⟩ := hq
    rw [← hq]
  · intro abs_dx abs_dy q hq
    simp only [MotorController.pigpio_step_timelines,
      MotorController.build_step_timeline, List.map_map, List.mem_map,
      List.mem_range, Function.comp] at hq
    obtain ⟨n, hn, hq⟩ := hq
    rw [← hq]

/-- C7 amended witness: on a concrete accelerating controller, the Y pulse
of the diagonal move `(1, 1)` carries delay `min_delay · 0.7 = 7/10`; on
its twin with acceleration disabled and `step_delay = 1`, the Y pulse of
the same diagonal move carries the unscaled existing delay 1; and on the
hardware-timed path of the acceleration-disabled twin, the first X
timeline entry of a `(2, 3)` move carries `(min_delay + pulse duration) ·
0.7`. -/
theorem diagonal_boost_amended_witness :
    ((⟨Axis.y, 0, (7 : ℚ)/10⟩ : Pulse).delay
      = (match (⟨Axis.y, 0, (7 : ℚ)/10⟩ : Pulse).axis with
        | Axis.x => StepperMotor.calculate_step_delay
            (⟨Axis.y, 0, (7 : ℚ)/10⟩ : Pulse).idx (1 : ℤ).natAbs 1 4 2
        | Axis.y => StepperMotor.calculate_step_delay
            (⟨Axis.y, 0, (7 : ℚ)/10⟩ : Pulse).idx (1 : ℤ).natAbs 1 4 2)
        * (if 0 < (1 : ℤ).natAbs ∧ 0 < (1 : ℤ).natAbs then (7 : ℚ)/10
           else 1)) ∧
    ((⟨Axis.y, 0, (1 : ℚ)⟩ : Pulse).delay
      = match (⟨Axis.y, 0, (1 : ℚ)⟩ : Pulse).axis with
        | Axis.x => (⟨⟨false, 10, 1, 1, 0, true, true⟩,
            ⟨false, 10, 1, 1, 0, true, true⟩, false, 1, 4, 2⟩ :
              MotorController).motor_x.step_delay
        | Axis.y => (⟨⟨false, 10, 1, 1, 0, true, true⟩,
            ⟨false, 10, 1, 1, 0, true, true⟩, false, 1, 4, 2⟩ :
              MotorController).motor_y.step_delay) ∧
    (((0 : ℕ), ((1 : ℚ) + 1) * ((7 : ℚ)/10)).2
      = ((if ((⟨⟨false, 10, 1, 1, 0, true, true⟩,
            ⟨false, 10, 1, 1, 0, true, true⟩, false, 1, 4, 2⟩ :
              MotorController)).enable_acceleration then
            StepperMotor.calculate_step_delay
              ((0 : ℕ), ((1 : ℚ) + 1) * ((7 : ℚ)/10)).1 2 1 4 2
          else 1) + 1)
        * (if 0 < 2 ∧ 0 < 3 then (7 : ℚ)/10 else 1)) := by
  refine ⟨?_, ?_, ?_⟩
  · exact (diagonal_boost_amended
      ⟨⟨false, 10, 1, 1, 0, true, true⟩, ⟨false, 10, 1, 1, 0, true, true⟩,
        true, 1, 4, 2⟩ 1 1 (by decide) (by decide) (by decide)
      (by decide)).1 rfl ⟨Axis.y, 0, (7 : ℚ)/10⟩ (by
        norm_num [MotorController.move_relative,
          MotorController.move_coordinated,
          MotorController.move_coordinated_with_sleep,
          MotorController.execute_y_dominant_move,
          MotorController.yDominantIter, Function.iterate_one,
          StepperMotor.calculate_step_delay])
  · exact (diagonal_boost_amended
      ⟨⟨false, 10, 1, 1, 0, true, true⟩, ⟨false, 10, 1, 1, 0, true, true⟩,
        false, 1, 4, 2⟩ 1 1 (by decide) (by decide) (by decide)
      (by decide)).2.1 rfl ⟨Axis.y, 0, (1 : ℚ)⟩ (by
        norm_num [MotorController.move_relative,
          MotorController.move_coordinated,
          MotorController.move_coordinated_with_sleep,
          MotorController.execute_y_dominant_move,
          MotorController.yDominantIter, Function.iterate_one])
  · exact (diagonal_boost_amended
      ⟨⟨false, 10, 1, 1, 0, true, true⟩, ⟨false, 10, 1, 1, 0, true, true⟩,
        false, 1, 4, 2⟩ 1 1 (by decide) (by decide) (by decide)
      (by decide)).2.2.1 2 3 ((0 : ℕ), ((1 : ℚ) + 1) * ((7 : ℚ)/10)) (by
        norm_num [MotorController.pigpio_step_timelines,
          MotorController.build_step_timeline, List.range_succ])

/-- Helper: one x-dominant Bresenham iteration never reads or writes the
`is_enabled` flags: it commutes with overwriting them. -/
theorem xDominantIter_setEnabled (c : MotorController) (dx dy : ℕ)
    (xd yd : Bool) (boost : ℚ) (b₁ b₂ : Bool)
    (s : MotorController.LoopState) :
    MotorController.xDominantIter (c.setEnabled b₁ b₂) dx dy xd yd boost
        (s.setEnabled b₁ b₂)
      = (MotorController.xDominantIter c dx dy xd yd boost s).setEnabled
          b₁ b₂ := by
  rcases Bool.dichotomy c.enable_acceleration with hacc | hacc <;>
    by_cases herr : s.error - (dy : ℚ) < 0 <;>
    simp [MotorController.xDominantIter, MotorController.setEnabled,
      MotorController.LoopState.setEnabled, StepperMotor.setEnabled, hacc,
      herr]

/-- Helper: one y-dominant Bresenham iteration never reads or writes the
`is_enabled` flags: it commutes with overwriting them. -/
theorem yDominantIter_setEnabled (c : MotorController) (dx dy : ℕ)
    (xd yd : Bool) (boost : ℚ) (b₁ b₂ : Bool)
    (s : MotorController.LoopState) :
    MotorController.yDominantIter (c.setEnabled b₁ b₂) dx dy xd yd boost
        (s.setEnabled b₁ b₂)
      = (MotorController.yDominantIter c dx dy xd yd boost s).setEnabled
          b₁ b₂ := by
  rcases Bool.dichotomy c.enable_acceleration with hacc | hacc <;>
    by_cases herr : s.error - (dx : ℚ) < 0 <;>
    simp [MotorController.yDominantIter, MotorController.setEnabled,
      MotorController.LoopState.setEnabled, StepperMotor.setEnabled, hacc,
      herr]

/-- Helper: the whole coordinated move commutes with overwriting the
`is_enabled` flags — the error result and the pulse log are identical, and
the final motors differ only in the overwritten flags. -/
theorem move_coordinated_setEnabled (c : MotorController) (dx dy : ℤ)
    (b₁ b₂ : Bool) :
    (c.setEnabled b₁ b₂).move_coordinated dx dy
      = ((c.move_coordinated dx dy).1,
         (c.move_coordinated dx dy).2.1.setEnabled b₁ b₂,
         (c.move_coordinated dx dy).2.2) := by
  have hiter : ∀ k dxn dyn xd yd boost,
      (MotorController.xDominantIter (c.setEnabled b₁ b₂) dxn dyn xd yd
          boost)^[k]
        (MotorController.LoopState.setEnabled
          ⟨c.motor_x, c.motor_y, (dxn : ℚ) / 2, 0, 0, []⟩ b₁ b₂)
        = (MotorController.LoopState.setEnabled
            ((MotorController.xDominantIter c dxn dyn xd yd boost)^[k]
              ⟨c.motor_x, c.motor_y, (dxn : ℚ) / 2, 0, 0, []⟩) b₁ b₂) := by
    intro k dxn dyn xd yd boost
    induction k with
    | zero => rfl
    | succ n ih =>
      rw [Function.iterate_succ_apply', Function.iterate_succ_apply', ih,
        xDominantIter_setEnabled]
  have hiterY : ∀ k dxn dyn xd yd boost,
      (MotorController.yDominantIter (c.setEnabled b₁ b₂) dxn dyn xd yd
          boost)^[k]
        (MotorController.LoopState.setEnabled
          ⟨c.motor_x, c.motor_y, (dyn : ℚ) / 2, 0, 0, []⟩ b₁ b₂)
        = (MotorController.LoopState.setEnabled
            ((MotorController.yDominantIter c dxn dyn xd yd boost)^[k]
              ⟨c.motor_x, c.motor_y, (dyn : ℚ) / 2, 0, 0, []⟩) b₁ b₂) := by
    intro k dxn dyn xd yd boost
    induction k with
    | zero => rfl
    | succ n ih =>
      rw [Function.iterate_succ_apply', Function.iterate_succ_apply', ih,
        yDominantIter_setEnabled]
  by_cases h0 : dx = 0 ∧ dy = 0
  · simp [MotorController.move_coordinated, h0]
  · by_cases hbx : c.motor_x.current_position + dx < 0 ∨
        (c.motor_x.max_position : ℤ) < c.motor_x.current_position + dx
    · simp only [MotorController.move_coordinated, if_neg h0]
      rw [if_pos (by simpa [MotorController.setEnabled,
          StepperMotor.setEnabled] using hbx), if_pos hbx]
    · by_cases hby : c.motor_y.current_position + dy < 0 ∨
          (c.motor_y.max_position : ℤ) < c.motor_y.current_position + dy
      · simp only [MotorController.move_coordinated, if_neg h0]
        rw [if_neg (by simpa [MotorController.setEnabled,
            StepperMotor.setEnabled] using hbx), if_pos (by
            simpa [MotorController.setEnabled,
              StepperMotor.setEnabled] using hby), if_neg hbx, if_pos hby]
      · simp only [MotorController.move_coordinated, if_neg h0]
        rw [if_neg (by simpa [MotorController.setEnabled,
            StepperMotor.setEnabled] using hbx), if_neg (by
            simpa [MotorController.setEnabled,
              StepperMotor.setEnabled] using hby), if_neg hbx, if_neg hby]
        simp only [MotorController.move_coordinated_with_sleep]
        by_cases hdom : dy.natAbs < dx.natAbs
        · rw [if_pos hdom, if_pos hdom]
          simp only [MotorController.execute_x_dominant_move]
          rw [show (MotorController.LoopState.mk
              ((c.setEnabled b₁ b₂).motor_x) ((c.setEnabled b₁ b₂).motor_y)
              ((dx.natAbs : ℚ) / 2) 0 0 [])
            = MotorController.LoopState.setEnabled
              ⟨c.motor_x, c.motor_y, (dx.natAbs : ℚ) / 2, 0, 0, []⟩ b₁ b₂
            from rfl, hiter]
          simp [MotorController.setEnabled, StepperMotor.setEnabled,
            MotorController.LoopState.setEnabled]
        · rw [if_neg hdom, if_neg hdom]
          simp only [MotorController.execute_y_dominant_move]
          rw [show (MotorController.LoopState.mk
              ((c.setEnabled b₁ b₂).motor_x) ((c.setEnabled b₁ b₂).motor_y)
              ((dy.natAbs : ℚ) / 2) 0 0 [])
            = MotorController.LoopState.setEnabled
              ⟨c.motor_x, c.motor_y, (dy.natAbs : ℚ) / 2, 0, 0, []⟩ b₁ b₂
            from rfl, hiterY]
          simp [MotorController.setEnabled, StepperMotor.setEnabled,
            MotorController.LoopState.setEnabled]

/-- Helper: the coordinated-move path can only return `none` or
`OutOfBounds`; it contains no enabled-state check at all. -/
theorem move_coordinated_never_disabled (c : MotorController) (dx dy : ℤ) :
    (c.move_coordinated dx dy).1 ≠ some MotionError.Disabled := by
  simp only [MotorController.move_coordinated]
  split_ifs <;> simp

/-- Helper: `move_to` can only return `NotHomed` or what the coordinated
move returns, never `Disabled`. -/
theorem move_to_never_disabled (c : MotorController) (x y : ℤ) :
    (c.move_to x y).1 ≠ some MotionError.Disabled := by
  simp only [MotorController.move_to]
  split_ifs
  · simp
  · exact move_coordinated_never_disabled c _ _

/-- C10: the coordinated-move path never checks `is_enabled` (that check
lives only in `StepperMotor.move`, which the coordinator bypasses): on a
controller with one or both axes disabled, an in-bounds `move_relative`
still succeeds, emits exactly the same pulses as the fully-enabled
controller, and updates both positions exactly as in the enabled case;
and neither `move_relative` nor `move_to` can ever fail with
`Disabled`. -/
theorem disabled_axes_bypassed (c : MotorController) (dx dy : ℤ)
    (hdis : c.motor_x.is_enabled = false ∨ c.motor_y.is_enabled = false)
    (hx0 : 0 ≤ c.motor_x.current_position + dx)
    (hx1 : c.motor_x.current_position + dx ≤ (c.motor_x.max_position : ℤ))
    (hy0 : 0 ≤ c.motor_y.current_position + dy)
    (hy1 : c.motor_y.current_position + dy ≤ (c.motor_y.max_position : ℤ)) :
    (c.move_relative dx dy).1 = none ∧
    (c.move_relative dx dy).2.2
      = ((c.setEnabled true true).move_relative dx dy).2.2 ∧
    (c.move_relative dx dy).2.1.motor_x.current_position
      = ((c.setEnabled true true).move_relative
          dx dy).2.1.motor_x.current_position ∧
    (c.move_relative dx dy).2.1.motor_y.current_position
      = ((c.setEnabled true true).move_relative
          dx dy).2.1.motor_y.current_position ∧
    (∀ a b : ℤ, (c.move_relative a b).1 ≠ some MotionError.Disabled) ∧
    (∀ a b : ℤ, (c.move_to a b).1 ≠ some MotionError.Disabled) := by
  have hcomm := move_coordinated_setEnabled c dx dy true true
  refine ⟨(move_coordinated_spec c dx dy hx0 hx1 hy0 hy1).1, ?_, ?_, ?_,
    fun a b => move_coordinated_never_disabled c a b,
    fun a b => move_to_never_disabled c a b⟩
  · rw [show (c.setEnabled true true).move_relative dx dy
        = (c.setEnabled true true).move_coordinated dx dy from rfl, hcomm]
    rfl
  · rw [show (c.setEnabled true true).move_relative dx dy
        = (c.setEnabled true true).move_coordinated dx dy from rfl, hcomm]
    simp [MotorController.setEnabled, StepperMotor.setEnabled,
      MotorController.move_relative]
  · rw [show (c.setEnabled true true).move_relative dx dy
        = (c.setEnabled true true).move_coordinated dx dy from rfl, hcomm]
    simp [MotorController.setEnabled, StepperMotor.setEnabled,
      MotorController.move_relative]

/-- C10 witness: a concrete controller with both axes disabled still
executes `move_relative 1 0` successfully with the same pulses and final
positions as its fully-enabled twin. -/
theorem disabled_axes_bypassed_witness :
    ((⟨⟨false, 10, 1, 1, 5, true, false⟩, ⟨false, 10, 1, 1, 5, true, false⟩,
        true, 1, 4, 2⟩ : MotorController).move_relative 1 0).1 = none ∧
    ((⟨⟨false, 10, 1, 1, 5, true, false⟩, ⟨false, 10, 1, 1, 5, true, false⟩,
        true, 1, 4, 2⟩ : MotorController).move_relative 1 0).2.2
      = (((⟨⟨false, 10, 1, 1, 5, true, false⟩,
          ⟨false, 10, 1, 1, 5, true, false⟩, true, 1, 4, 2⟩ :
            MotorController).setEnabled true true).move_relative 1 0).2.2 ∧
    ((⟨⟨false, 10, 1, 1, 5, true, false⟩, ⟨false, 10, 1, 1, 5, true, false⟩,
        true, 1, 4, 2⟩ : MotorController).move_relative
        1 0).2.1.motor_x.current_position
      = (((⟨⟨false, 10, 1, 1, 5, true, false⟩,
          ⟨false, 10, 1, 1, 5, true, false⟩, true, 1, 4, 2⟩ :
            MotorController).setEnabled true true).move_relative
          1 0).2.1.motor_x.current_position ∧
    ((⟨⟨false, 10, 1, 1, 5, true, false⟩, ⟨false, 10, 1, 1, 5, true, false⟩,
        true, 1, 4, 2⟩ : MotorController).move_relative
        1 0).2.1.motor_y.current_position
      = (((⟨⟨false, 10, 1, 1, 5, true, false⟩,
          ⟨false, 10, 1, 1, 5, true, false⟩, true, 1, 4, 2⟩ :
            MotorController).setEnabled true true).move_relative
          1 0).2.1.motor_y.current_position ∧
    (∀ a b : ℤ, ((⟨⟨false, 10, 1, 1, 5, true, false⟩,
        ⟨false, 10, 1, 1, 5, true, false⟩, true, 1, 4, 2⟩ :
          MotorController).move_relative a b).1
        ≠ some MotionError.Disabled) ∧
    (∀ a b : ℤ, ((⟨⟨false, 10, 1, 1, 5, true, false⟩,
        ⟨false, 10, 1, 1, 5, true, false⟩, true, 1, 4, 2⟩ :
          MotorController).move_to a b).1 ≠ some MotionError.Disabled) :=
  disabled_axes_bypassed
    ⟨⟨false, 10, 1, 1, 5, true, false⟩, ⟨false, 10, 1, 1, 5, true, false⟩,
      true, 1, 4, 2⟩ 1 0 (Or.inl rfl) (by decide) (by decide) (by decide)
    (by decide)
